import Mathlib

/-
Verification of the Hebrew-birthday calendar core: the gematria/date text
decoder (src/services/dateConvertionLogic.py), the Hebrew/Gregorian date
conversion layer, and the birthday-occurrence finder
(hebrew_calendar.py, HebrewBirthdayCalendar).

The text decoder and the occurrence-finder loop are embedded directly from
the Python source.  The date conversion itself is performed in the source by
the external pyluach library, which is not part of the repository; following
the specification it is modelled here by the classical Hebrew-calendar
computation (Maimonides 19-year cycle, molad arithmetic with the four
postponement rules) paired with the proleptic Gregorian calendar, with
month numbering Nisan = 1, Tishrei = 7, Adar II = 13, as the specification
prescribes.  The model was checked against known reference dates
(1 Tishrei 5785 = 2024-10-03, 15 Nisan 5784 = 2024-04-23, etc.).
-/

set_option maxRecDepth 1000000

/-- Association-list lookup, used to model Python dict lookup. -/
def assocLookup {α β : Type} [DecidableEq α] : List (α × β) → α → Option β
  | [], _ => none
  | (k, v) :: rest, key => if k = key then some v else assocLookup rest key

/-- Gematria table HEBREW_NUMS from dateConvertionLogic.py. -/
def HEBREW_NUMS : List (Char × Nat) :=
  [('א', 1), ('ב', 2), ('ג', 3), ('ד', 4), ('ה', 5),
   ('ו', 6), ('ז', 7), ('ח', 8), ('ט', 9),
   ('י', 10), ('כ', 20), ('ך', 20), ('ל', 30), ('מ', 40), ('ם', 40),
   ('נ', 50), ('ן', 50), ('ס', 60), ('ע', 70), ('פ', 80), ('ף', 80),
   ('צ', 90), ('ץ', 90), ('ק', 100), ('ר', 200), ('ש', 300), ('ת', 400)]

/-- Month-name table HEBREW_MONTHS from dateConvertionLogic.py. -/
def HEBREW_MONTHS : List (String × Nat) :=
  [("תשרי", 7),
   ("חשון", 8), ("מרחשון", 8),
   ("כסלו", 9),
   ("טבת", 10),
   ("שבט", 11),
   ("אדר", 12),
   ("אדר א", 12), ("אדר א\x27", 12), ("אדר ראשון", 12),
   ("אדר ב", 13), ("אדר ב\x27", 13), ("אדר שני", 13),
   ("ניסן", 1),
   ("אייר", 2),
   ("סיון", 3), ("סיוון", 3),
   ("תמוז", 4),
   ("אב", 5),
   ("אלול", 6)]

/-- The loop of hebrew_gematria_to_num: running total over the table,
characters outside the table skipped. -/
def gematriaSum : List Char → Nat → Nat
  | [], total => total
  | ch :: rest, total =>
    match assocLookup HEBREW_NUMS ch with
    | some v => gematriaSum rest (total + v)
    | none => gematriaSum rest total

/-- Embedding of hebrew_gematria_to_num from dateConvertionLogic.py. -/
def hebrew_gematria_to_num (text : String) : Nat :=
  gematriaSum text.data 0

/-- Value contributed by a single character: its table value, or 0 when the
character is not in the gematria table. -/
def letterValue (c : Char) : Nat :=
  (assocLookup HEBREW_NUMS c).getD 0

/-- Model of Python str.replace old new: replace all non-overlapping
occurrences, scanning left to right.  The first argument is fuel; the
function is used with fuel at least the length of the string. -/
def pyReplaceF (pat rep : List Char) : Nat → List Char → List Char
  | 0, s => s
  | fuel + 1, s =>
    match s with
    | [] => []
    | c :: rest =>
      if pat ≠ [] ∧ pat.isPrefixOf (c :: rest) then
        rep ++ pyReplaceF pat rep fuel (List.drop pat.length (c :: rest))
      else
        c :: pyReplaceF pat rep fuel rest

def pyReplace (pat rep s : List Char) : List Char :=
  pyReplaceF pat rep s.length s

/-- Model of Python str.strip with no argument: remove whitespace at both
ends. -/
def pyStrip (s : List Char) : List Char :=
  ((s.dropWhile Char.isWhitespace).reverse.dropWhile Char.isWhitespace).reverse

/-- Model of the startswith-ה step of hebrew_year_to_num: drop a leading ה
when more than one character remains. -/
def dropLeadingHe : List Char → List Char
  | 'ה' :: c :: rest => c :: rest
  | other => other

/-- Embedding of hebrew_year_to_num from dateConvertionLogic.py:
remove "שנת", strip whitespace, drop a leading ה when more than one
character remains, keep table characters, sum, and add 5000 below 1000. -/
def hebrew_year_to_num (year_text : String) : Nat :=
  let t2 := dropLeadingHe (pyStrip (pyReplace "שנת".data [] year_text.data))
  let letters := t2.filter (fun ch => (assocLookup HEBREW_NUMS ch).isSome)
  let val := gematriaSum letters 0
  if val < 1000 then val + 5000 else val

/-- Month-name normalization performed inside parse_hebrew_date:
replace "באדר" by "אדר", then remove all spaces. -/
def normalizeMonth (month_text : String) : String :=
  String.mk (pyReplace " ".data [] (pyReplace "באדר".data "אדר".data month_text.data))

/-- Embedding of parse_hebrew_date from dateConvertionLogic.py.  The
error value models the ValueError raised for an unknown month name. -/
def parse_hebrew_date (day_text month_text year_text : String) :
    Except String (Nat × Nat × Nat) :=
  let day := hebrew_gematria_to_num day_text
  let year := hebrew_year_to_num year_text
  match assocLookup HEBREW_MONTHS (normalizeMonth month_text) with
  | some month => Except.ok (year, month, day)
  | none => Except.error (String.append "Unknown month: " (normalizeMonth month_text))

/-- The year-normalization procedure exactly as the specification words it:
strip the PREFIX word "שנת" and surrounding whitespace, drop a leading ה
when more than one character remains, keep table characters, sum them, and
add 5000 when the value is below 1000.  Used to compare the specification
sentence with the code, which instead removes every occurrence of "שנת". -/
def specYearProcedure (year_text : String) : Nat :=
  let t2 := dropLeadingHe (pyStrip (if "שנת".data.isPrefixOf year_text.data then
      year_text.data.drop 3 else year_text.data))
  let letters := t2.filter (fun ch => (assocLookup HEBREW_NUMS ch).isSome)
  let val := (letters.map letterValue).sum
  if val < 1000 then val + 5000 else val

/-- The year-normalization procedure with the single amendment forced by the
code: every occurrence of "שנת" is removed, not only a leading one. -/
def specYearAmended (year_text : String) : Nat :=
  let t2 := dropLeadingHe (pyStrip (pyReplace "שנת".data [] year_text.data))
  let letters := t2.filter (fun ch => (assocLookup HEBREW_NUMS ch).isSome)
  let val := (letters.map letterValue).sum
  if val < 1000 then val + 5000 else val

/-- Hebrew leap year in the 19-year cycle.
Modelled from the spec: the external Hebrew-calendar library used by the
repository (pyluach) is not part of the sources; its leap-year rule is the
classical one. -/
def hebrewLeapYear (y : Nat) : Prop := (7 * y + 1) % 19 < 7

instance (y : Nat) : Decidable (hebrewLeapYear y) := by
  unfold hebrewLeapYear; infer_instance

/-- Months elapsed before Tishrei of Hebrew year y.
Modelled from the spec: classical Hebrew-calendar computation. -/
def monthsElapsed (y : Nat) : Nat :=
  235 * ((y - 1) / 19) + 12 * ((y - 1) % 19) + (7 * ((y - 1) % 19) + 1) / 19

/-- Parts of the molad of Tishrei of year y, counted from the start of the
epoch day (one hour = 1080 parts, one lunar month = 765433 parts,
first molad at 5 hours 204 parts). -/
def molad (y : Nat) : Nat := 765433 * monthsElapsed y + 5604

/-- Day number of 1 Tishrei of Hebrew year y, with day 1 = 1 Tishrei of
year 1, including the four postponement rules.
Modelled from the spec: classical Hebrew-calendar computation. -/
def elapsedDays (y : Nat) : Nat :=
  let m := monthsElapsed y
  let partsElapsed := 204 + 793 * (m % 1080)
  let hoursElapsed := 5 + 12 * m + 793 * (m / 1080) + partsElapsed / 1080
  let conjDay := 1 + 29 * m + hoursElapsed / 24
  let conjParts := 1080 * (hoursElapsed % 24) + partsElapsed % 1080
  let altDay :=
    if conjParts ≥ 19440 ∨
        (conjDay % 7 = 2 ∧ conjParts ≥ 9924 ∧ ¬hebrewLeapYear y) ∨
        (conjDay % 7 = 1 ∧ conjParts ≥ 16789 ∧ hebrewLeapYear (y - 1))
    then conjDay + 1 else conjDay
  if altDay % 7 = 0 ∨ altDay % 7 = 3 ∨ altDay % 7 = 5 then altDay + 1 else altDay

/-- Length in days of Hebrew year y. -/
def hebrewYearLength (y : Nat) : Nat := elapsedDays (y + 1) - elapsedDays y

/-- Months of Hebrew year y in calendar order starting from Tishrei, paired
with their lengths.  Month numbering: Nisan = 1, Tishrei = 7, Adar (or
Adar I) = 12, Adar II = 13 in leap years only. -/
def monthsOfYear (y : Nat) : List (Nat × Nat) :=
  let yl := hebrewYearLength y
  let cheshvan := if yl % 10 = 5 then 30 else 29
  let kislev := if yl % 10 = 3 then 29 else 30
  [(7, 30), (8, cheshvan), (9, kislev), (10, 29), (11, 30)] ++
    (if hebrewLeapYear y then [(12, 30), (13, 29)] else [(12, 29)]) ++
    [(1, 30), (2, 29), (3, 30), (4, 29), (5, 30), (6, 29)]

/-- Validity of a Hebrew date, as checked by the HebrewDate constructor of
the external library: positive year, month present in the year, day within
the month. -/
def hebrewDateValid (y m d : Nat) : Bool :=
  1 ≤ y &&
    match assocLookup (monthsOfYear y) m with
    | some len => 1 ≤ d && d ≤ len
    | none => false

/-- Day of year (1-based) of day d of month m, given a month list. -/
def walkDoy : List (Nat × Nat) → Nat → Nat → Option Nat
  | [], _, _ => none
  | (mm, len) :: rest, m, d =>
    if mm = m then some d else (walkDoy rest m d).map (· + len)

/-- Month and day-of-month from a 1-based day of year, given a month list. -/
def walkMonth : List (Nat × Nat) → Nat → Option (Nat × Nat)
  | [], _ => none
  | (mm, len) :: rest, doy =>
    if doy ≤ len then some (mm, doy) else walkMonth rest (doy - len)

/-- Absolute day number of a Hebrew date (meaningful when the date is
valid). -/
def hebAbs (y m d : Nat) : Nat :=
  match walkDoy (monthsOfYear y) m d with
  | some doy => elapsedDays y + doy - 1
  | none => 0

/-- Search upward for the Hebrew year containing absolute day n. -/
def hebYearSearch : Nat → Nat → Nat → Nat
  | 0, y, _ => y
  | fuel + 1, y, n => if n < elapsedDays (y + 1) then y else hebYearSearch fuel (y + 1) n

/-- Hebrew date from an absolute day number (day 1 = 1 Tishrei of year 1). -/
def hebFromAbs (n : Nat) : Option (Nat × Nat × Nat) :=
  if n < 1 then none
  else
    let y := hebYearSearch (n + 1) (n / 386 + 1) n
    match walkMonth (monthsOfYear y) (n - elapsedDays y + 1) with
    | some (m, d) => some (y, m, d)
    | none => none

/-- Proleptic Gregorian leap year for the year u - 3761 (u ≥ 0), expressed
on the shifted year u:  u ≡ 1 (mod 4) encodes year ≡ 0 (mod 4),
u ≡ 61 (mod 100) encodes year ≡ 0 (mod 100), u ≡ 161 (mod 400) encodes
year ≡ 0 (mod 400). -/
def gregLeapU (u : Nat) : Prop :=
  u % 4 = 1 ∧ (¬(u % 100 = 61) ∨ u % 400 = 161)

instance (u : Nat) : Decidable (gregLeapU u) := by
  unfold gregLeapU; infer_instance

/-- Gregorian month lengths. -/
def gregMonths (lp : Prop) [Decidable lp] : List (Nat × Nat) :=
  [(1, 31), (2, if lp then 29 else 28), (3, 31), (4, 30), (5, 31), (6, 30),
   (7, 31), (8, 31), (9, 30), (10, 31), (11, 30), (12, 31)]

/-- Absolute day number (same scale as elapsedDays) of 1 January of the
proleptic Gregorian year u - 3761: 365 days per earlier year plus one per
earlier leap year, anchored so that day 1 is 1 Tishrei of Hebrew year 1
(7 September of Gregorian year -3760). -/
def gregJan1 (u : Nat) : Int :=
  365 * (u : Int) + ((u + 2) / 4 : Nat) - ((u + 38) / 100 : Nat) + ((u + 238) / 400 : Nat) - 614

/-- Search upward for the shifted Gregorian year containing absolute day n. -/
def gregYearSearch : Nat → Nat → Int → Nat
  | 0, u, _ => u
  | fuel + 1, u, n => if n < gregJan1 (u + 1) then u else gregYearSearch fuel (u + 1) n

/-- Assembly step of gregFromAbs once the containing year u is known. -/
def gregAssemble (u n : Nat) : Int × Nat × Nat :=
  match walkMonth (gregMonths (gregLeapU u)) (((n : Int) - gregJan1 u + 1).toNat) with
  | some (m, d) => ((u : Int) - 3761, m, d)
  | none => ((u : Int) - 3761, 0, 0)

/-- Gregorian date (year, month, day) of absolute day n ≥ 1. -/
def gregFromAbs (n : Nat) : Int × Nat × Nat :=
  gregAssemble (gregYearSearch (615 + n) (n / 366) (n : Int)) n

/-- Validity of a proleptic Gregorian date within the range supported by the
conversion layer (years -3761 and later; every earlier date precedes the
Hebrew epoch and is rejected by the conversion). -/
def gregorianDateValid (y : Int) (m d : Nat) : Bool :=
  -3761 ≤ y &&
    match assocLookup (gregMonths (gregLeapU (y + 3761).toNat)) m with
    | some len => 1 ≤ d && d ≤ len
    | none => false

/-- Absolute day number of a Gregorian date (meaningful when the date is
valid). -/
def gregAbs (y : Int) (m d : Nat) : Int :=
  match walkDoy (gregMonths (gregLeapU (y + 3761).toNat)) m d with
  | some doy => gregJan1 (y + 3761).toNat + (doy : Int) - 1
  | none => 0

/-- Embedding of convert_hebrew_to_gregorian from dateConvertionLogic.py,
equally of HebrewDate(...).to_greg(): none models the ValueError raised on
an invalid Hebrew date. -/
def convert_hebrew_to_gregorian (hd : Nat × Nat × Nat) : Option (Int × Nat × Nat) :=
  if hebrewDateValid hd.1 hd.2.1 hd.2.2 then some (gregFromAbs (hebAbs hd.1 hd.2.1 hd.2.2))
  else none

/-- Embedding of GregorianDate(...).to_heb(): none models the error raised
on an invalid date or on a date before the Hebrew epoch. -/
def gregorian_to_hebrew (g : Int × Nat × Nat) : Option (Nat × Nat × Nat) :=
  if gregorianDateValid g.1 g.2.1 g.2.2 ∧ 1 ≤ gregAbs g.1 g.2.1 g.2.2 then
    hebFromAbs (gregAbs g.1 g.2.1 g.2.2).toNat
  else none

/-- Embedding of HebrewBirthdayCalendar.hebrew_to_gregorian
(hebrew_calendar.py): converts and returns none instead of raising. -/
def hebrew_to_gregorian (hebrew_day hebrew_month hebrew_year : Nat) :
    Option (Int × Nat × Nat) :=
  convert_hebrew_to_gregorian (hebrew_year, hebrew_month, hebrew_day)

/-- One candidate Hebrew year inside the per-year loop of
get_hebrew_birthday_gregorian_dates: convert, and accept the result exactly
when its Gregorian year is the target year. -/
def tryCandidate (hd hm : Nat) (gy : Int) (hy : Nat) : Option (Int × Nat × Nat) :=
  match hebrew_to_gregorian hd hm hy with
  | some g => if g.1 = gy then some g else none
  | none => none

/-- Body of the per-year loop of get_hebrew_birthday_gregorian_dates:
Hebrew year of 1 January, then the two candidate Hebrew years in order,
stopping at the first accepted one. -/
def perYear (hd hm : Nat) (gy : Int) : Option (Int × Nat × Nat) :=
  match gregorian_to_hebrew (gy, 1, 1) with
  | none => none
  | some h =>
    match tryCandidate hd hm gy h.1 with
    | some g => some g
    | none => tryCandidate hd hm gy (h.1 + 1)

/-- The accumulation loop of get_hebrew_birthday_gregorian_dates over
year offsets 0, 1, ..., appending at most one date per target year. -/
def birthdayLoop (hd hm : Nat) (sy : Int) : Nat → List (Int × Nat × Nat)
  | 0 => []
  | k + 1 => birthdayLoop hd hm sy k ++ (perYear hd hm (sy + k)).toList

/-- Comparison by the sort key (year, month, day) used in
get_hebrew_birthday_gregorian_dates. -/
def dateLe (a b : Int × Nat × Nat) : Prop :=
  a.1 < b.1 ∨ (a.1 = b.1 ∧ (a.2.1 < b.2.1 ∨ (a.2.1 = b.2.1 ∧ a.2.2 ≤ b.2.2)))

instance : DecidableRel dateLe := by
  intro a b; unfold dateLe; infer_instance

instance : IsTotal (Int × Nat × Nat) dateLe := by
  constructor; intro a b; unfold dateLe; omega

instance : IsTrans (Int × Nat × Nat) dateLe := by
  constructor; intro a b c; unfold dateLe; omega

/-- Embedding of HebrewBirthdayCalendar.get_hebrew_birthday_gregorian_dates
(hebrew_calendar.py): the per-year search loop followed by the final
sorted(...) call with key (year, month, day). -/
def get_hebrew_birthday_gregorian_dates (hebrew_day hebrew_month : Nat)
    (start_year num_years : Int) : List (Int × Nat × Nat) :=
  List.insertionSort dateLe (birthdayLoop hebrew_day hebrew_month start_year num_years.toNat)

/-- The per-year occurrence as the specification words it: compute the
Hebrew year H of 1 January of the target year, then take the first of the
candidate years H, H + 1 whose conversion lands in the target year. -/
def specOccurrence (hd hm : Nat) (gy : Int) : Option (Int × Nat × Nat) :=
  match gregorian_to_hebrew (gy, 1, 1) with
  | none => none
  | some h => List.findSome? (fun hy => tryCandidate hd hm gy hy) [h.1, h.1 + 1]

/-- Postponement computation on the molad parts value a, with the
GaTaRaD condition (applies only to common years) and the BeTUTeKaPoT
condition (applies only after a leap year) given as propositions. -/
def ppP (a : Nat) (tue mon : Prop) [Decidable tue] [Decidable mon] : Nat :=
  let conjDay := 1 + a / 25920
  let conjParts := a % 25920
  let altDay :=
    if conjParts ≥ 19440 ∨ (conjDay % 7 = 2 ∧ conjParts ≥ 9924 ∧ tue) ∨
        (conjDay % 7 = 1 ∧ conjParts ≥ 16789 ∧ mon)
    then conjDay + 1 else conjDay
  if altDay % 7 = 0 ∨ altDay % 7 = 3 ∨ altDay % 7 = 5 then altDay + 1 else altDay

/-- Division-free form of ppP on an argument 25920 * k + p with p < 25920. -/
def pp2 (k p : Nat) (tue mon : Prop) [Decidable tue] [Decidable mon] : Nat :=
  let conjDay := 1 + k
  let altDay :=
    if p ≥ 19440 ∨ (conjDay % 7 = 2 ∧ p ≥ 9924 ∧ tue) ∨
        (conjDay % 7 = 1 ∧ p ≥ 16789 ∧ mon)
    then conjDay + 1 else conjDay
  if altDay % 7 = 0 ∨ altDay % 7 = 3 ∨ altDay % 7 = 5 then altDay + 1 else altDay

/-! ### Lemmas about the text decoder -/

theorem gematriaSum_eq (l : List Char) (t : Nat) :
    gematriaSum l t = t + (l.map letterValue).sum := by
  induction l generalizing t with
  | nil => simp [gematriaSum]
  | cons c rest ih =>
    cases h : assocLookup HEBREW_NUMS c with
    | none =>
      simp only [gematriaSum, h, List.map_cons, List.sum_cons, letterValue,
        Option.getD_none]
      rw [ih]
      omega
    | some v =>
      simp only [gematriaSum, h, List.map_cons, List.sum_cons, letterValue,
        Option.getD_some]
      rw [ih]
      omega

theorem mem_pyReplaceF {c : Char} (pat : List Char) (fuel : Nat) (s : List Char)
    (h : c ∈ pyReplaceF pat [] fuel s) : c ∈ s := by
  induction fuel generalizing s with
  | zero => exact h
  | succ fuel ih =>
    match s with
    | [] => simp [pyReplaceF] at h
    | a :: rest =>
      simp only [pyReplaceF] at h
      split at h
      · have := ih _ h
        exact List.drop_subset _ _ this
      · rcases List.mem_cons.mp h with h1 | h1
        · simp [h1]
        · exact List.mem_cons_of_mem _ (ih _ h1)

theorem mem_pyStrip {c : Char} (s : List Char) (h : c ∈ pyStrip s) : c ∈ s := by
  unfold pyStrip at h
  rw [List.mem_reverse] at h
  have h1 := (List.dropWhile_sublist _).subset h
  rw [List.mem_reverse] at h1
  exact (List.dropWhile_sublist _).subset h1

/-- Claim C5: for every input string, hebrew_gematria_to_num returns the
plain sum of the fixed table values of its recognized letters in input
order, with the 22 standard values, each final form equal to its non-final
counterpart, unrecognized characters contributing nothing without error,
and result 0 when no letter is recognized. -/
theorem claim_C5 :
    (∀ s : String, hebrew_gematria_to_num s = (s.data.map letterValue).sum) ∧
    (letterValue 'א' = 1 ∧ letterValue 'ב' = 2 ∧ letterValue 'ג' = 3 ∧
     letterValue 'ד' = 4 ∧ letterValue 'ה' = 5 ∧ letterValue 'ו' = 6 ∧
     letterValue 'ז' = 7 ∧ letterValue 'ח' = 8 ∧ letterValue 'ט' = 9 ∧
     letterValue 'י' = 10 ∧ letterValue 'כ' = 20 ∧ letterValue 'ל' = 30 ∧
     letterValue 'מ' = 40 ∧ letterValue 'נ' = 50 ∧ letterValue 'ס' = 60 ∧
     letterValue 'ע' = 70 ∧ letterValue 'פ' = 80 ∧ letterValue 'צ' = 90 ∧
     letterValue 'ק' = 100 ∧ letterValue 'ר' = 200 ∧ letterValue 'ש' = 300 ∧
     letterValue 'ת' = 400 ∧
     letterValue 'ך' = letterValue 'כ' ∧ letterValue 'ם' = letterValue 'מ' ∧
     letterValue 'ן' = letterValue 'נ' ∧ letterValue 'ף' = letterValue 'פ' ∧
     letterValue 'ץ' = letterValue 'צ') ∧
    (∀ s : String, (∀ c ∈ s.data, assocLookup HEBREW_NUMS c = none) →
      hebrew_gematria_to_num s = 0) := by
  refine ⟨fun s => ?_, by decide, fun s h => ?_⟩
  · rw [hebrew_gematria_to_num, gematriaSum_eq]
    omega
  · rw [hebrew_gematria_to_num, gematriaSum_eq]
    have : (s.data.map letterValue).sum = 0 := by
      apply List.sum_eq_zero
      intro x hx
      rcases List.mem_map.mp hx with ⟨c, hc, rfl⟩
      simp [letterValue, h c hc]
    omega

/-- Witness for claim C5 at a concrete input with no recognized letter. -/
theorem claim_C5_witness :
    (∀ c ∈ "xy?".data, assocLookup HEBREW_NUMS c = none) ∧
      hebrew_gematria_to_num "xy?" = 0 :=
  ⟨by decide, claim_C5.2.2 "xy?" (by decide)⟩

theorem mem_dropLeadingHe {c : Char} (l : List Char) (h : c ∈ dropLeadingHe l) :
    c ∈ l := by
  unfold dropLeadingHe at h
  split at h
  · exact List.mem_cons_of_mem _ h
  · exact h

/-- Claim C9: for every input string containing no character of the
gematria table, hebrew_year_to_num returns exactly 5000 and raises no
error. -/
theorem claim_C9 :
    ∀ s : String, (∀ c ∈ s.data, assocLookup HEBREW_NUMS c = none) →
      hebrew_year_to_num s = 5000 := by
  intro s h
  have hfil : (dropLeadingHe (pyStrip (pyReplace "שנת".data [] s.data))).filter
      (fun ch => (assocLookup HEBREW_NUMS ch).isSome) = [] := by
    rw [List.filter_eq_nil_iff]
    intro c hc
    have hcs : c ∈ s.data :=
      mem_pyReplaceF _ _ _ (mem_pyStrip _ (mem_dropLeadingHe _ hc))
    simp [h c hcs]
  simp only [hebrew_year_to_num, hfil]
  decide

/-- Witness for claim C9 at the empty string and at pure punctuation. -/
theorem claim_C9_witness :
    ((∀ c ∈ "".data, assocLookup HEBREW_NUMS c = none) ∧ hebrew_year_to_num "" = 5000) ∧
    ((∀ c ∈ "?!".data, assocLookup HEBREW_NUMS c = none) ∧ hebrew_year_to_num "?!" = 5000) :=
  ⟨⟨by decide, claim_C9 "" (by decide)⟩, ⟨by decide, claim_C9 "?!" (by decide)⟩⟩

/-- Claim C6 as stated is refuted: the specification says the PREFIX word
"שנת" is stripped, but the code removes every occurrence; on the input
"אשנת" (where "שנת" occurs but not as a prefix) the code yields 5001
while the stated procedure yields 5751. -/
theorem claim_C6_counterexample :
    hebrew_year_to_num "אשנת" = 5001 ∧ specYearProcedure "אשנת" = 5751 ∧
      hebrew_year_to_num "אשנת" ≠ specYearProcedure "אשנת" :=
  ⟨by decide, by decide, by decide⟩

/-- Claim C6, amended: hebrew_year_to_num removes every occurrence of the
word "שנת" (not only a leading one), strips surrounding whitespace, drops a
leading ה when more than one character remains, keeps only table characters
and sums their values, and adds 5000 when the sum is below 1000; in
particular it maps "תשפ״ה" to 5785 and "שנת התשס\"ה" to 5765. -/
theorem claim_C6_amended :
    (∀ s : String, hebrew_year_to_num s = specYearAmended s) ∧
    hebrew_year_to_num "תשפ״ה" = 5785 ∧
    hebrew_year_to_num "שנת התשס\"ה" = 5765 := by
  refine ⟨fun s => ?_, by decide, by decide⟩
  simp only [hebrew_year_to_num, specYearAmended, gematriaSum_eq, Nat.zero_add]

/-- Claim C7: the table does map "אדר א\x27" to 12 and "אדר ב" to 13 and
the parser fails exactly on strings whose normalization is absent from the
table — but precisely because normalization removes internal spaces, the
spaced table entries themselves fail to parse: the code contradicts its own
docstring example, which parses the month "אדר א\x27". -/
theorem claim_C7_bug :
    assocLookup HEBREW_MONTHS "אדר א\x27" = some 12 ∧
    assocLookup HEBREW_MONTHS "אדר ב" = some 13 ∧
    parse_hebrew_date "כט" "אדר א\x27" "תשסה" =
      Except.error "Unknown month: אדרא\x27" ∧
    parse_hebrew_date "א" "אדר ב" "תשפה" = Except.error "Unknown month: אדרב" ∧
    (∀ dt mt yt, assocLookup HEBREW_MONTHS (normalizeMonth mt) = none →
      parse_hebrew_date dt mt yt =
        Except.error (String.append "Unknown month: " (normalizeMonth mt))) ∧
    (∀ dt mt yt m, assocLookup HEBREW_MONTHS (normalizeMonth mt) = some m →
      parse_hebrew_date dt mt yt =
        Except.ok (hebrew_year_to_num yt, m, hebrew_gematria_to_num dt)) := by
  refine ⟨by decide, by decide, by rfl, by rfl, fun dt mt yt h => ?_, fun dt mt yt m h => ?_⟩
  · simp only [parse_hebrew_date, h]
  · simp only [parse_hebrew_date, h]

/-- Witness for claim C7 at concrete inputs for both quantified parts. -/
theorem claim_C7_bug_witness :
    (assocLookup HEBREW_MONTHS (normalizeMonth "אדר א\x27") = none ∧
      parse_hebrew_date "כט" "אדר א\x27" "תשסה" =
        Except.error (String.append "Unknown month: " (normalizeMonth "אדר א\x27"))) ∧
    (assocLookup HEBREW_MONTHS (normalizeMonth "טבת") = some 10 ∧
      parse_hebrew_date "י" "טבת" "תשפה" =
        Except.ok (hebrew_year_to_num "תשפה", 10, hebrew_gematria_to_num "י")) :=
  ⟨⟨by decide, claim_C7_bug.2.2.2.2.1 "כט" "אדר א\x27" "תשסה" (by decide)⟩,
   ⟨by decide, claim_C7_bug.2.2.2.2.2 "י" "טבת" "תשפה" 10 (by decide)⟩⟩

/-- Claim C8 as stated is refuted: the normalization only collapses the
literal "באדר"; for every other month the ב-prefixed form is not
recognized — "בתשרי" errors while "תשרי" parses to month 7. -/
theorem claim_C8_counterexample :
    parse_hebrew_date "א" "בתשרי" "תשפה" = Except.error "Unknown month: בתשרי" ∧
    parse_hebrew_date "א" "תשרי" "תשפה" = Except.ok (5785, 7, 1) :=
  ⟨by rfl, by rfl⟩

/-- Claim C8, amended: only the two-word form of Adar is collapsed — parsing
"באדר" gives month 12 exactly like "אדר" — while for every other name in the
month table the ב-prefixed form normalizes to a string absent from the
table, so the parser raises on it. -/
theorem claim_C8_amended :
    (∀ dt yt, parse_hebrew_date dt "באדר" yt = parse_hebrew_date dt "אדר" yt ∧
      parse_hebrew_date dt "באדר" yt =
        Except.ok (hebrew_year_to_num yt, 12, hebrew_gematria_to_num dt)) ∧
    (∀ p ∈ HEBREW_MONTHS, p.1 ≠ "אדר" →
      assocLookup HEBREW_MONTHS (normalizeMonth (String.append "ב" p.1)) = none) := by
  refine ⟨fun dt yt => ⟨?_, ?_⟩, by decide⟩
  · simp only [parse_hebrew_date]
    rfl
  · simp only [parse_hebrew_date]
    rfl

/-- Witness for claim C8 at concrete inputs for both quantified parts. -/
theorem claim_C8_amended_witness :
    (parse_hebrew_date "טו" "באדר" "תשפד" = parse_hebrew_date "טו" "אדר" "תשפד" ∧
      parse_hebrew_date "טו" "באדר" "תשפד" =
        Except.ok (hebrew_year_to_num "תשפד", 12, hebrew_gematria_to_num "טו")) ∧
    (("תשרי", 7) ∈ HEBREW_MONTHS ∧ "תשרי" ≠ "אדר" ∧
      assocLookup HEBREW_MONTHS (normalizeMonth (String.append "ב" "תשרי")) = none) :=
  ⟨claim_C8_amended.1 "טו" "תשפד",
   by decide, by decide,
   claim_C8_amended.2 ("תשרי", 7) (by decide) (by decide)⟩

/-- Claim C10: parse_hebrew_date raises only for an unrecognized month
name; whenever the month is recognized it returns the raw gematria sum of
the day text with no range validation — including day 0 for an empty day
text and day 31 for "לא". -/
theorem claim_C10 :
    (∀ dt mt yt m, assocLookup HEBREW_MONTHS (normalizeMonth mt) = some m →
      parse_hebrew_date dt mt yt =
        Except.ok (hebrew_year_to_num yt, m, hebrew_gematria_to_num dt)) ∧
    (∀ dt mt yt, assocLookup HEBREW_MONTHS (normalizeMonth mt) = none →
      parse_hebrew_date dt mt yt =
        Except.error (String.append "Unknown month: " (normalizeMonth mt))) ∧
    hebrew_gematria_to_num "לא" = 31 ∧
    hebrew_gematria_to_num "" = 0 ∧
    parse_hebrew_date "לא" "תשרי" "תשפה" = Except.ok (5785, 7, 31) ∧
    parse_hebrew_date "" "תשרי" "תשפה" = Except.ok (5785, 7, 0) := by
  refine ⟨fun dt mt yt m h => ?_, fun dt mt yt h => ?_, by decide, by decide, by rfl, by rfl⟩
  · simp only [parse_hebrew_date, h]
  · simp only [parse_hebrew_date, h]

/-- Witness for claim C10 at concrete inputs for both quantified parts. -/
theorem claim_C10_witness :
    (assocLookup HEBREW_MONTHS (normalizeMonth "אלול") = some 6 ∧
      parse_hebrew_date "לא" "אלול" "תשפה" =
        Except.ok (hebrew_year_to_num "תשפה", 6, hebrew_gematria_to_num "לא")) ∧
    (assocLookup HEBREW_MONTHS (normalizeMonth "xyz") = none ∧
      parse_hebrew_date "א" "xyz" "תשפה" =
        Except.error (String.append "Unknown month: " (normalizeMonth "xyz"))) :=
  ⟨⟨by decide, claim_C10.1 "לא" "אלול" "תשפה" 6 (by decide)⟩,
   ⟨by decide, claim_C10.2.1 "א" "xyz" "תשפה" (by decide)⟩⟩

/-! ### The elapsed-days computation in molad form -/

theorem ppP_eq_pp2 (k p : Nat) (hp : p < 25920) (tue mon : Prop)
    [Decidable tue] [Decidable mon] :
    ppP (25920 * k + p) tue mon = pp2 k p tue mon := by
  have h1 : (25920 * k + p) / 25920 = k := by omega
  have h2 : (25920 * k + p) % 25920 = p := by omega
  simp only [ppP, pp2, h1, h2]

theorem ppP_congr (a : Nat) (P Q P2 Q2 : Prop)
    [Decidable P] [Decidable Q] [Decidable P2] [Decidable Q2]
    (h1 : P ↔ P2) (h2 : Q ↔ Q2) : ppP a P Q = ppP a P2 Q2 := by
  cases propext h1
  cases propext h2
  congr 1

theorem elapsedDays_eq_ppP (y : Nat) :
    elapsedDays y = ppP (molad y) (¬hebrewLeapYear y) (hebrewLeapYear (y - 1)) := by
  simp only [elapsedDays, ppP, molad]
  generalize monthsElapsed y = m
  obtain ⟨q, s2, hm, hs⟩ : ∃ q s2, m = 1080 * q + s2 ∧ s2 < 1080 :=
    ⟨m / 1080, m % 1080, by omega, by omega⟩
  subst hm
  rw [show (1080 * q + s2) / 1080 = q by omega, show (1080 * q + s2) % 1080 = s2 by omega]
  obtain ⟨u, v, huv, hv⟩ : ∃ u v, 204 + 793 * s2 = 1080 * u + v ∧ v < 1080 :=
    ⟨(204 + 793 * s2) / 1080, (204 + 793 * s2) % 1080, by omega, by omega⟩
  rw [show (204 + 793 * s2) / 1080 = u by omega, show (204 + 793 * s2) % 1080 = v by omega]
  rw [show 1 + 29 * (1080 * q + s2) + (5 + 12 * (1080 * q + s2) + 793 * q + u) / 24
      = 1 + (765433 * (1080 * q + s2) + 5604) / 25920 by omega]
  rw [show 1080 * ((5 + 12 * (1080 * q + s2) + 793 * q + u) % 24) + v
      = (765433 * (1080 * q + s2) + 5604) % 25920 by omega]

/-! ### The four-gates lemmas: each year length is an allowed value -/

theorem gatesLeap (a : Nat) :
    ppP (a + 9950629) True True = ppP a False False + 383 ∨
    ppP (a + 9950629) True True = ppP a False False + 384 ∨
    ppP (a + 9950629) True True = ppP a False False + 385 := by
  obtain ⟨k, p, ha, hp⟩ : ∃ k p, a = 25920 * k + p ∧ p < 25920 :=
    ⟨a / 25920, a % 25920, by omega, by omega⟩
  subst ha
  rw [ppP_eq_pp2 k p hp]
  rcases Nat.lt_or_ge p 2651 with h | h
  · rw [show 25920 * k + p + 9950629 = 25920 * (k + 383) + (p + 23269) by omega,
      ppP_eq_pp2 (k + 383) (p + 23269) (by omega)]
    simp only [pp2, and_true, and_false, or_false, false_or]
    split_ifs <;> omega
  · rw [show 25920 * k + p + 9950629 = 25920 * (k + 384) + (p - 2651) by omega,
      ppP_eq_pp2 (k + 384) (p - 2651) (by omega)]
    simp only [pp2, and_true, and_false, or_false, false_or]
    split_ifs <;> omega

theorem gatesCCC (a : Nat) :
    ppP (a + 9185196) True False = ppP a True False + 353 ∨
    ppP (a + 9185196) True False = ppP a True False + 354 ∨
    ppP (a + 9185196) True False = ppP a True False + 355 := by
  obtain ⟨k, p, ha, hp⟩ : ∃ k p, a = 25920 * k + p ∧ p < 25920 :=
    ⟨a / 25920, a % 25920, by omega, by omega⟩
  subst ha
  rw [ppP_eq_pp2 k p hp]
  rcases Nat.lt_or_ge p 16404 with h | h
  · rw [show 25920 * k + p + 9185196 = 25920 * (k + 354) + (p + 9516) by omega,
      ppP_eq_pp2 (k + 354) (p + 9516) (by omega)]
    simp only [pp2, and_true, and_false, or_false, false_or]
    split_ifs <;> omega
  · rw [show 25920 * k + p + 9185196 = 25920 * (k + 355) + (p - 16404) by omega,
      ppP_eq_pp2 (k + 355) (p - 16404) (by omega)]
    simp only [pp2, and_true, and_false, or_false, false_or]
    split_ifs <;> omega

theorem gatesCCL (a : Nat) :
    ppP (a + 9185196) False False = ppP a True False + 353 ∨
    ppP (a + 9185196) False False = ppP a True False + 354 ∨
    ppP (a + 9185196) False False = ppP a True False + 355 := by
  obtain ⟨k, p, ha, hp⟩ : ∃ k p, a = 25920 * k + p ∧ p < 25920 :=
    ⟨a / 25920, a % 25920, by omega, by omega⟩
  subst ha
  rw [ppP_eq_pp2 k p hp]
  rcases Nat.lt_or_ge p 16404 with h | h
  · rw [show 25920 * k + p + 9185196 = 25920 * (k + 354) + (p + 9516) by omega,
      ppP_eq_pp2 (k + 354) (p + 9516) (by omega)]
    simp only [pp2, and_true, and_false, or_false, false_or]
    split_ifs <;> omega
  · rw [show 25920 * k + p + 9185196 = 25920 * (k + 355) + (p - 16404) by omega,
      ppP_eq_pp2 (k + 355) (p - 16404) (by omega)]
    simp only [pp2, and_true, and_false, or_false, false_or]
    split_ifs <;> omega

theorem gatesCLC (a : Nat) :
    ppP (a + 9185196) True False = ppP a True True + 353 ∨
    ppP (a + 9185196) True False = ppP a True True + 354 ∨
    ppP (a + 9185196) True False = ppP a True True + 355 := by
  obtain ⟨k, p, ha, hp⟩ : ∃ k p, a = 25920 * k + p ∧ p < 25920 :=
    ⟨a / 25920, a % 25920, by omega, by omega⟩
  subst ha
  rw [ppP_eq_pp2 k p hp]
  rcases Nat.lt_or_ge p 16404 with h | h
  · rw [show 25920 * k + p + 9185196 = 25920 * (k + 354) + (p + 9516) by omega,
      ppP_eq_pp2 (k + 354) (p + 9516) (by omega)]
    simp only [pp2, and_true, and_false, or_false, false_or]
    split_ifs <;> omega
  · rw [show 25920 * k + p + 9185196 = 25920 * (k + 355) + (p - 16404) by omega,
      ppP_eq_pp2 (k + 355) (p - 16404) (by omega)]
    simp only [pp2, and_true, and_false, or_false, false_or]
    split_ifs <;> omega

theorem gatesCLL (a : Nat) :
    ppP (a + 9185196) False False = ppP a True True + 353 ∨
    ppP (a + 9185196) False False = ppP a True True + 354 ∨
    ppP (a + 9185196) False False = ppP a True True + 355 := by
  obtain ⟨k, p, ha, hp⟩ : ∃ k p, a = 25920 * k + p ∧ p < 25920 :=
    ⟨a / 25920, a % 25920, by omega, by omega⟩
  subst ha
  rw [ppP_eq_pp2 k p hp]
  rcases Nat.lt_or_ge p 16404 with h | h
  · rw [show 25920 * k + p + 9185196 = 25920 * (k + 354) + (p + 9516) by omega,
      ppP_eq_pp2 (k + 354) (p + 9516) (by omega)]
    simp only [pp2, and_true, and_false, or_false, false_or]
    split_ifs <;> omega
  · rw [show 25920 * k + p + 9185196 = 25920 * (k + 355) + (p - 16404) by omega,
      ppP_eq_pp2 (k + 355) (p - 16404) (by omega)]
    simp only [pp2, and_true, and_false, or_false, false_or]
    split_ifs <;> omega

/-! ### Year-to-year structure of the calendar -/

theorem hebrewLeapYear_next (y : Nat) (h : hebrewLeapYear y) : ¬hebrewLeapYear (y + 1) := by
  unfold hebrewLeapYear at h ⊢
  obtain ⟨t, r, rfl, hr⟩ : ∃ t r, y = 19 * t + r ∧ r < 19 :=
    ⟨y / 19, y % 19, by omega, by omega⟩
  interval_cases r <;> omega

theorem monthsElapsed_step (y : Nat) (hy : 1 ≤ y) :
    monthsElapsed (y + 1) = monthsElapsed y + (if hebrewLeapYear y then 13 else 12) := by
  unfold monthsElapsed hebrewLeapYear
  obtain ⟨t, r, rfl, hr⟩ : ∃ t r, y = 19 * t + r + 1 ∧ r < 19 :=
    ⟨(y - 1) / 19, (y - 1) % 19, by omega, by omega⟩
  split_ifs with h <;> interval_cases r <;> omega

theorem molad_step (y : Nat) (hy : 1 ≤ y) :
    molad (y + 1) = molad y + (if hebrewLeapYear y then 9950629 else 9185196) := by
  unfold molad
  rw [monthsElapsed_step y hy]
  split_ifs <;> ring

/-- Every Hebrew year is 353, 354 or 355 days long when common and 383, 384
or 385 days long when leap. -/
theorem ed_step (y : Nat) (hy : 1 ≤ y) :
    (hebrewLeapYear y ∧
      (elapsedDays (y + 1) = elapsedDays y + 383 ∨
       elapsedDays (y + 1) = elapsedDays y + 384 ∨
       elapsedDays (y + 1) = elapsedDays y + 385)) ∨
    (¬hebrewLeapYear y ∧
      (elapsedDays (y + 1) = elapsedDays y + 353 ∨
       elapsedDays (y + 1) = elapsedDays y + 354 ∨
       elapsedDays (y + 1) = elapsedDays y + 355)) := by
  rw [elapsedDays_eq_ppP y, elapsedDays_eq_ppP (y + 1)]
  simp only [Nat.add_sub_cancel]
  by_cases hL : hebrewLeapYear y
  · left
    refine ⟨hL, ?_⟩
    have hnext : ¬hebrewLeapYear (y + 1) := hebrewLeapYear_next y hL
    have hprev : ¬hebrewLeapYear (y - 1) := by
      intro hp
      have h2 := hebrewLeapYear_next (y - 1) hp
      rw [Nat.sub_add_cancel hy] at h2
      exact h2 hL
    rw [molad_step y hy, if_pos hL]
    rw [ppP_congr (molad y + 9950629) (¬hebrewLeapYear (y + 1)) (hebrewLeapYear y)
      True True (iff_true_intro hnext) (iff_true_intro hL)]
    rw [ppP_congr (molad y) (¬hebrewLeapYear y) (hebrewLeapYear (y - 1))
      False False (iff_false_intro (not_not_intro hL)) (iff_false_intro hprev)]
    exact gatesLeap (molad y)
  · right
    refine ⟨hL, ?_⟩
    rw [molad_step y hy, if_neg hL]
    rw [ppP_congr (molad y + 9185196) (¬hebrewLeapYear (y + 1)) (hebrewLeapYear y)
      (¬hebrewLeapYear (y + 1)) False Iff.rfl (iff_false_intro hL)]
    rw [ppP_congr (molad y) (¬hebrewLeapYear y) (hebrewLeapYear (y - 1))
      True (hebrewLeapYear (y - 1)) (iff_true_intro hL) Iff.rfl]
    by_cases hL1 : hebrewLeapYear (y + 1)
    · rw [ppP_congr (molad y + 9185196) (¬hebrewLeapYear (y + 1)) False
        False False (iff_false_intro (not_not_intro hL1)) Iff.rfl]
      by_cases hLm : hebrewLeapYear (y - 1)
      · rw [ppP_congr (molad y) True (hebrewLeapYear (y - 1)) True True
          Iff.rfl (iff_true_intro hLm)]
        exact gatesCLL (molad y)
      · rw [ppP_congr (molad y) True (hebrewLeapYear (y - 1)) True False
          Iff.rfl (iff_false_intro hLm)]
        exact gatesCCL (molad y)
    · rw [ppP_congr (molad y + 9185196) (¬hebrewLeapYear (y + 1)) False
        True False (iff_true_intro hL1) Iff.rfl]
      by_cases hLm : hebrewLeapYear (y - 1)
      · rw [ppP_congr (molad y) True (hebrewLeapYear (y - 1)) True True
          Iff.rfl (iff_true_intro hLm)]
        exact gatesCLC (molad y)
      · rw [ppP_congr (molad y) True (hebrewLeapYear (y - 1)) True False
          Iff.rfl (iff_false_intro hLm)]
        exact gatesCCC (molad y)

theorem ed_one : elapsedDays 1 = 1 := by decide

theorem ed_step_bounds (y : Nat) (hy : 1 ≤ y) :
    elapsedDays y + 353 ≤ elapsedDays (y + 1) ∧
      elapsedDays (y + 1) ≤ elapsedDays y + 385 := by
  rcases ed_step y hy with ⟨_, h⟩ | ⟨_, h⟩ <;> omega

theorem ed_lb (y : Nat) (hy : 1 ≤ y) : y ≤ elapsedDays y := by
  induction y with
  | zero => omega
  | succ n ih =>
    rcases Nat.eq_or_lt_of_le hy with h1 | h1
    · rw [← h1, ed_one]
    · have hn : 1 ≤ n := by omega
      have := ed_step_bounds n hn
      have := ih hn
      omega

theorem ed_ub (y : Nat) : elapsedDays (y + 1) ≤ 385 * y + 1 := by
  induction y with
  | zero => rw [ed_one]
  | succ n ih =>
    have := ed_step_bounds (n + 1) (by omega)
    omega

theorem ed_mono (y z : Nat) (hy : 1 ≤ y) (hyz : y ≤ z) :
    elapsedDays y ≤ elapsedDays z := by
  induction z with
  | zero => omega
  | succ n ih =>
    rcases Nat.eq_or_lt_of_le hyz with h1 | h1
    · rw [h1]
    · have hn : y ≤ n := by omega
      have h2 := ed_step_bounds n (by omega)
      have := ih hn
      omega

/-- Correctness of the upward year search: whenever the search starts at or
below the target day and the fuel reaches past it, it returns the unique
year whose interval contains the day. -/
theorem hebYearSearch_correct (fuel : Nat) : ∀ y n, 1 ≤ y →
    elapsedDays y ≤ n → n < elapsedDays (y + fuel) →
    1 ≤ hebYearSearch fuel y n ∧
      elapsedDays (hebYearSearch fuel y n) ≤ n ∧
      n < elapsedDays (hebYearSearch fuel y n + 1) := by
  induction fuel with
  | zero =>
    intro y n hy h1 h2
    rw [Nat.add_zero] at h2
    omega
  | succ fuel ih =>
    intro y n hy h1 h2
    rw [hebYearSearch]
    split_ifs with h
    · exact ⟨hy, h1, h⟩
    · refine ih (y + 1) n (by omega) (by omega) ?_
      rw [show y + 1 + fuel = y + (fuel + 1) by omega]
      exact h2

/-! ### Generic month-walk lemmas -/

theorem assocLookup_mem {α β : Type} [DecidableEq α] (l : List (α × β)) (k : α) (v : β)
    (h : assocLookup l k = some v) : (k, v) ∈ l := by
  induction l with
  | nil => simp [assocLookup] at h
  | cons p rest ih =>
    obtain ⟨k2, v2⟩ := p
    simp only [assocLookup] at h
    split_ifs at h with he
    · obtain rfl : v2 = v := by injection h
      subst he
      exact List.mem_cons_self _ _
    · exact List.mem_cons_of_mem _ (ih h)

theorem assocLookup_fst_mem {α β : Type} [DecidableEq α] (l : List (α × β)) (k : α) (v : β)
    (h : assocLookup l k = some v) : k ∈ l.map Prod.fst := by
  have := assocLookup_mem l k v h
  exact List.mem_map.mpr ⟨(k, v), this, rfl⟩

theorem walkDoy_spec (ms : List (Nat × Nat)) (m d len : Nat)
    (hl : assocLookup ms m = some len) (hd1 : 1 ≤ d) (hdl : d ≤ len) :
    ∃ doy, walkDoy ms m d = some doy ∧ walkMonth ms doy = some (m, d) ∧
      1 ≤ doy ∧ doy ≤ (ms.map Prod.snd).sum := by
  induction ms with
  | nil => simp [assocLookup] at hl
  | cons p rest ih =>
    obtain ⟨mm, L⟩ := p
    simp only [assocLookup] at hl
    split_ifs at hl with he
    · obtain rfl : L = len := by injection hl
      subst he
      refine ⟨d, ?_, ?_, hd1, ?_⟩
      · simp [walkDoy]
      · simp [walkMonth, hdl]
      · simp only [List.map_cons, List.sum_cons]
        omega
    · obtain ⟨doy, hw, hwm, h1, h2⟩ := ih hl
      refine ⟨doy + L, ?_, ?_, by omega, ?_⟩
      · simp [walkDoy, he, hw]
      · simp only [walkMonth]
        rw [if_neg (by omega)]
        rw [show doy + L - L = doy by omega]
        exact hwm
      · simp only [List.map_cons, List.sum_cons]
        omega

theorem walkMonth_inv (ms : List (Nat × Nat)) (doy m d : Nat)
    (hnd : (ms.map Prod.fst).Nodup) (h1 : 1 ≤ doy)
    (h : walkMonth ms doy = some (m, d)) :
    ∃ len, assocLookup ms m = some len ∧ 1 ≤ d ∧ d ≤ len ∧
      walkDoy ms m d = some doy := by
  induction ms generalizing doy with
  | nil => simp [walkMonth] at h
  | cons p rest ih =>
    obtain ⟨mm, L⟩ := p
    simp only [walkMonth] at h
    simp only [List.map_cons, List.nodup_cons] at hnd
    split_ifs at h with hc
    · obtain ⟨rfl, rfl⟩ : mm = m ∧ doy = d := by
        constructor <;> injection h with h2 <;> injection h2 <;> omega
      refine ⟨L, ?_, h1, hc, ?_⟩
      · simp [assocLookup]
      · simp [walkDoy]
    · obtain ⟨len, hlk, hd1, hdl, hwd⟩ := ih (doy - L) hnd.2 (by omega) h
      have hne : mm ≠ m := by
        intro he
        subst he
        exact hnd.1 (assocLookup_fst_mem rest mm len hlk)
      refine ⟨len, ?_, hd1, hdl, ?_⟩
      · simp [assocLookup, hne, hlk]
      · simp only [walkDoy, if_neg hne, hwd, Option.map_some']
        rw [show doy - L + L = doy by omega]

theorem walkMonth_total (ms : List (Nat × Nat)) (doy : Nat) (h1 : 1 ≤ doy)
    (h2 : doy ≤ (ms.map Prod.snd).sum) : ∃ md, walkMonth ms doy = some md := by
  induction ms generalizing doy with
  | nil => simp at h2; omega
  | cons p rest ih =>
    obtain ⟨mm, L⟩ := p
    simp only [walkMonth]
    split_ifs with hc
    · exact ⟨(mm, doy), rfl⟩
    · refine ih (doy - L) (by omega) ?_
      simp only [List.map_cons, List.sum_cons] at h2
      omega

/-! ### Facts about the Hebrew month list -/

theorem monthsOfYear_fst (y : Nat) :
    (monthsOfYear y).map Prod.fst =
      if hebrewLeapYear y then [7, 8, 9, 10, 11, 12, 13, 1, 2, 3, 4, 5, 6]
      else [7, 8, 9, 10, 11, 12, 1, 2, 3, 4, 5, 6] := by
  simp only [monthsOfYear]
  split_ifs <;> rfl

theorem monthsOfYear_nodup (y : Nat) : ((monthsOfYear y).map Prod.fst).Nodup := by
  rw [monthsOfYear_fst]
  split_ifs <;> decide

theorem monthsOfYear_sum (y : Nat) (hy : 1 ≤ y) :
    ((monthsOfYear y).map Prod.snd).sum = hebrewYearLength y := by
  rcases ed_step y hy with ⟨hL, hc⟩ | ⟨hL, hc⟩
  · rcases hc with h1 | h1 | h1
    · have hyl : hebrewYearLength y = 383 := by unfold hebrewYearLength; omega
      simp only [monthsOfYear, hyl, if_pos hL]
      decide
    · have hyl : hebrewYearLength y = 384 := by unfold hebrewYearLength; omega
      simp only [monthsOfYear, hyl, if_pos hL]
      decide
    · have hyl : hebrewYearLength y = 385 := by unfold hebrewYearLength; omega
      simp only [monthsOfYear, hyl, if_pos hL]
      decide
  · rcases hc with h1 | h1 | h1
    · have hyl : hebrewYearLength y = 353 := by unfold hebrewYearLength; omega
      simp only [monthsOfYear, hyl, if_neg hL]
      decide
    · have hyl : hebrewYearLength y = 354 := by unfold hebrewYearLength; omega
      simp only [monthsOfYear, hyl, if_neg hL]
      decide
    · have hyl : hebrewYearLength y = 355 := by unfold hebrewYearLength; omega
      simp only [monthsOfYear, hyl, if_neg hL]
      decide

theorem monthsOfYear_len_le (y m len : Nat)
    (h : (m, len) ∈ monthsOfYear y) : len ≤ 30 ∧ 1 ≤ m ∧ m ≤ 13 := by
  have hm : m ∈ (monthsOfYear y).map Prod.fst := List.mem_map.mpr ⟨(m, len), h, rfl⟩
  have hl : len ∈ (monthsOfYear y).map Prod.snd := List.mem_map.mpr ⟨(m, len), h, rfl⟩
  have h30 : ∀ x ∈ (monthsOfYear y).map Prod.snd, x ≤ 30 := by
    simp only [monthsOfYear]
    split_ifs <;> decide
  rw [monthsOfYear_fst] at hm
  refine ⟨h30 len hl, ?_⟩
  split_ifs at hm <;>
    simp only [List.mem_cons, List.not_mem_nil, or_false] at hm <;> omega

/-! ### Hebrew date to absolute day and back -/

theorem hebrewDateValid_elim (y m d : Nat) (hv : hebrewDateValid y m d = true) :
    1 ≤ y ∧ ∃ len, assocLookup (monthsOfYear y) m = some len ∧ 1 ≤ d ∧ d ≤ len := by
  simp only [hebrewDateValid, Bool.and_eq_true, decide_eq_true_eq] at hv
  refine ⟨hv.1, ?_⟩
  rcases hv with ⟨h1, h2⟩
  cases hlk : assocLookup (monthsOfYear y) m with
  | none => rw [hlk] at h2; simp at h2
  | some len =>
    rw [hlk] at h2
    simp only [Bool.and_eq_true, decide_eq_true_eq] at h2
    exact ⟨len, rfl, h2.1, h2.2⟩

theorem hebrewDateValid_intro (y m d len : Nat) (hy : 1 ≤ y)
    (hlk : assocLookup (monthsOfYear y) m = some len) (hd1 : 1 ≤ d) (hdl : d ≤ len) :
    hebrewDateValid y m d = true := by
  simp only [hebrewDateValid, hlk, Bool.and_eq_true, decide_eq_true_eq]
  exact ⟨hy, hd1, hdl⟩

theorem hebYearSearch_at (n : Nat) (hn : 1 ≤ n) :
    1 ≤ hebYearSearch (n + 1) (n / 386 + 1) n ∧
      elapsedDays (hebYearSearch (n + 1) (n / 386 + 1) n) ≤ n ∧
      n < elapsedDays (hebYearSearch (n + 1) (n / 386 + 1) n + 1) := by
  have hstart : elapsedDays (n / 386 + 1) ≤ n := by
    have := ed_ub (n / 386)
    omega
  have hend : n < elapsedDays (n / 386 + 1 + (n + 1)) := by
    have := ed_lb (n / 386 + 1 + (n + 1)) (by omega)
    omega
  exact hebYearSearch_correct (n + 1) (n / 386 + 1) n (by omega) hstart hend

theorem heb_year_unique (y z n : Nat) (hy : 1 ≤ y) (hz : 1 ≤ z)
    (h1 : elapsedDays y ≤ n) (h2 : n < elapsedDays (y + 1))
    (h3 : elapsedDays z ≤ n) (h4 : n < elapsedDays (z + 1)) : y = z := by
  rcases Nat.lt_trichotomy y z with h | h | h
  · have := ed_mono (y + 1) z (by omega) (by omega)
    omega
  · exact h
  · have := ed_mono (z + 1) y (by omega) (by omega)
    omega

theorem heb_to_from (y m d : Nat) (hv : hebrewDateValid y m d = true) :
    1 ≤ hebAbs y m d ∧ hebFromAbs (hebAbs y m d) = some (y, m, d) := by
  obtain ⟨hy, len, hlk, hd1, hdl⟩ := hebrewDateValid_elim y m d hv
  obtain ⟨doy, hw, hwm, hdo1, hdo2⟩ := walkDoy_spec (monthsOfYear y) m d len hlk hd1 hdl
  rw [monthsOfYear_sum y hy] at hdo2
  have habs : hebAbs y m d = elapsedDays y + doy - 1 := by
    simp only [hebAbs, hw]
  have hedy : y ≤ elapsedDays y := ed_lb y hy
  have hbd := ed_step_bounds y hy
  have h1 : 1 ≤ hebAbs y m d := by omega
  refine ⟨h1, ?_⟩
  set n := hebAbs y m d with hn
  have hlow : elapsedDays y ≤ n := by omega
  have hhigh : n < elapsedDays (y + 1) := by
    have : hebrewYearLength y = elapsedDays (y + 1) - elapsedDays y := rfl
    omega
  obtain ⟨hs1, hs2, hs3⟩ := hebYearSearch_at n h1
  have hys : hebYearSearch (n + 1) (n / 386 + 1) n = y :=
    heb_year_unique _ y n hs1 hy hs2 hs3 hlow hhigh
  have hdoy : n - elapsedDays y + 1 = doy := by omega
  simp only [hebFromAbs, if_neg (by omega : ¬n < 1), hys, hdoy, hwm]

theorem heb_from_to (n : Nat) (hn : 1 ≤ n) :
    ∃ y m d, hebFromAbs n = some (y, m, d) ∧ hebrewDateValid y m d = true ∧
      hebAbs y m d = n := by
  obtain ⟨hs1, hs2, hs3⟩ := hebYearSearch_at n hn
  set ys := hebYearSearch (n + 1) (n / 386 + 1) n with hys
  have hsum : ((monthsOfYear ys).map Prod.snd).sum = hebrewYearLength ys :=
    monthsOfYear_sum ys hs1
  have hyl : hebrewYearLength ys = elapsedDays (ys + 1) - elapsedDays ys := rfl
  have hdo1 : 1 ≤ n - elapsedDays ys + 1 := by omega
  have hdo2 : n - elapsedDays ys + 1 ≤ ((monthsOfYear ys).map Prod.snd).sum := by omega
  obtain ⟨⟨m, d⟩, hwm⟩ := walkMonth_total (monthsOfYear ys) (n - elapsedDays ys + 1) hdo1 hdo2
  obtain ⟨len, hlk, hd1, hdl, hwd⟩ :=
    walkMonth_inv (monthsOfYear ys) (n - elapsedDays ys + 1) m d
      (monthsOfYear_nodup ys) hdo1 hwm
  refine ⟨ys, m, d, ?_, ?_, ?_⟩
  · simp only [hebFromAbs, if_neg (by omega : ¬n < 1), ← hys, hwm]
  · exact hebrewDateValid_intro ys m d len hs1 hlk hd1 hdl
  · simp only [hebAbs, hwd]
    omega

/-! ### Gregorian date to absolute day and back -/

theorem gregJan1_step (u : Nat) :
    gregJan1 (u + 1) = gregJan1 u + 365 + (if gregLeapU u then 1 else 0) := by
  unfold gregJan1 gregLeapU
  split_ifs with h <;> push_cast <;> omega

theorem gregJan1_lb (u : Nat) : 365 * (u : Int) - 614 ≤ gregJan1 u := by
  unfold gregJan1
  omega

theorem gregJan1_ub (u : Nat) : gregJan1 u ≤ 366 * (u : Int) - 612 := by
  unfold gregJan1
  omega

theorem gregJan1_mono (u v : Nat) (h : u ≤ v) : gregJan1 u ≤ gregJan1 v := by
  induction v with
  | zero =>
    have h0 : u = 0 := by omega
    subst h0
    exact le_refl _
  | succ k ih =>
    rcases Nat.eq_or_lt_of_le h with h1 | h1
    · rw [h1]
    · have h2 := gregJan1_step k
      have := ih (by omega)
      split_ifs at h2 <;> omega

theorem gregYearSearch_correct (fuel : Nat) : ∀ (u : Nat) (n : Int),
    gregJan1 u ≤ n → n < gregJan1 (u + fuel) →
    gregJan1 (gregYearSearch fuel u n) ≤ n ∧
      n < gregJan1 (gregYearSearch fuel u n + 1) := by
  induction fuel with
  | zero =>
    intro u n h1 h2
    rw [Nat.add_zero] at h2
    omega
  | succ fuel ih =>
    intro u n h1 h2
    rw [gregYearSearch]
    split_ifs with h
    · exact ⟨h1, h⟩
    · refine ih (u + 1) n (by omega) ?_
      rw [show u + 1 + fuel = u + (fuel + 1) by omega]
      exact h2

theorem gregYearSearch_at (n : Nat) (hn : 1 ≤ n) :
    gregJan1 (gregYearSearch (615 + n) (n / 366) (n : Int)) ≤ (n : Int) ∧
      (n : Int) < gregJan1 (gregYearSearch (615 + n) (n / 366) (n : Int) + 1) := by
  have hu1 := gregJan1_ub (n / 366)
  have hu2 := gregJan1_lb (n / 366 + (615 + n))
  refine gregYearSearch_correct (615 + n) (n / 366) (n : Int) (by push_cast at hu1 ⊢; omega)
    (by push_cast at hu2 ⊢; omega)

theorem greg_year_unique (u v : Nat) (n : Int)
    (h1 : gregJan1 u ≤ n) (h2 : n < gregJan1 (u + 1))
    (h3 : gregJan1 v ≤ n) (h4 : n < gregJan1 (v + 1)) : u = v := by
  rcases Nat.lt_trichotomy u v with h | h | h
  · have := gregJan1_mono (u + 1) v (by omega)
    omega
  · exact h
  · have := gregJan1_mono (v + 1) u (by omega)
    omega

theorem gregMonths_fst (lp : Prop) [Decidable lp] :
    (gregMonths lp).map Prod.fst = [1, 2, 3, 4, 5, 6, 7, 8, 9, 10, 11, 12] := rfl

theorem gregMonths_nodup (lp : Prop) [Decidable lp] :
    ((gregMonths lp).map Prod.fst).Nodup := by
  rw [gregMonths_fst]
  decide

theorem gregMonths_sum (lp : Prop) [Decidable lp] :
    ((gregMonths lp).map Prod.snd).sum = 365 + (if lp then 1 else 0) := by
  simp only [gregMonths]
  split_ifs <;> decide

theorem gregorianDateValid_elim (y : Int) (m d : Nat)
    (hv : gregorianDateValid y m d = true) :
    -3761 ≤ y ∧ ∃ len, assocLookup (gregMonths (gregLeapU (y + 3761).toNat)) m = some len ∧
      1 ≤ d ∧ d ≤ len := by
  simp only [gregorianDateValid, Bool.and_eq_true, decide_eq_true_eq] at hv
  refine ⟨hv.1, ?_⟩
  rcases hv with ⟨h1, h2⟩
  cases hlk : assocLookup (gregMonths (gregLeapU (y + 3761).toNat)) m with
  | none => rw [hlk] at h2; simp at h2
  | some len =>
    rw [hlk] at h2
    simp only [Bool.and_eq_true, decide_eq_true_eq] at h2
    exact ⟨len, rfl, h2.1, h2.2⟩

theorem gregorianDateValid_intro (y : Int) (m d len : Nat) (hy : -3761 ≤ y)
    (hlk : assocLookup (gregMonths (gregLeapU (y + 3761).toNat)) m = some len)
    (hd1 : 1 ≤ d) (hdl : d ≤ len) : gregorianDateValid y m d = true := by
  simp only [gregorianDateValid, hlk, Bool.and_eq_true, decide_eq_true_eq]
  exact ⟨hy, hd1, hdl⟩

theorem gregAssemble_eq (u n m d : Nat)
    (hwm : walkMonth (gregMonths (gregLeapU u)) (((n : Int) - gregJan1 u + 1).toNat) =
      some (m, d)) :
    gregAssemble u n = ((u : Int) - 3761, m, d) := by
  unfold gregAssemble
  rw [hwm]

theorem gregAbs_eq (y : Int) (m d doy : Nat)
    (hwd : walkDoy (gregMonths (gregLeapU (y + 3761).toNat)) m d = some doy) :
    gregAbs y m d = gregJan1 (y + 3761).toNat + (doy : Int) - 1 := by
  unfold gregAbs
  rw [hwd]

theorem greg_to_from (y : Int) (m d : Nat) (hv : gregorianDateValid y m d = true)
    (habs : 1 ≤ gregAbs y m d) :
    gregFromAbs (gregAbs y m d).toNat = (y, m, d) ∧
      ((gregAbs y m d).toNat : Int) = gregAbs y m d := by
  obtain ⟨hy, len, hlk, hd1, hdl⟩ := gregorianDateValid_elim y m d hv
  obtain ⟨doy, hw, hwm, hdo1, hdo2⟩ :=
    walkDoy_spec (gregMonths (gregLeapU (y + 3761).toNat)) m d len hlk hd1 hdl
  rw [gregMonths_sum] at hdo2
  set u := (y + 3761).toNat with hu
  have huy : (u : Int) = y + 3761 := by omega
  have hga : gregAbs y m d = gregJan1 u + (doy : Int) - 1 := by
    rw [gregAbs_eq y m d doy hw, hu]
  set n := (gregAbs y m d).toNat with hn
  have hni : (n : Int) = gregAbs y m d := by omega
  have hlow : gregJan1 u ≤ (n : Int) := by omega
  have hhigh : (n : Int) < gregJan1 (u + 1) := by
    have hstep := gregJan1_step u
    split_ifs at hdo2 hstep <;> push_cast <;> omega
  obtain ⟨hs1, hs2⟩ := gregYearSearch_at n (by omega)
  have hus : gregYearSearch (615 + n) (n / 366) (n : Int) = u :=
    greg_year_unique _ u (n : Int) hs1 hs2 hlow hhigh
  have hdoy : ((n : Int) - gregJan1 u + 1).toNat = doy := by omega
  clear_value n u
  constructor
  · have e0 : gregFromAbs n = gregAssemble (gregYearSearch (615 + n) (n / 366) (n : Int)) n :=
      rfl
    rw [← hdoy] at hwm
    rw [e0, hus, gregAssemble_eq u n m d hwm]
    have he : (u : Int) - 3761 = y := by omega
    rw [he]
  · exact hni

theorem greg_from_to (n : Nat) (hn : 1 ≤ n) :
    ∃ y m d, gregFromAbs n = (y, m, d) ∧ gregorianDateValid y m d = true ∧
      gregAbs y m d = (n : Int) := by
  obtain ⟨hs1, hs2⟩ := gregYearSearch_at n hn
  set us := gregYearSearch (615 + n) (n / 366) (n : Int) with hus
  have hstep := gregJan1_step us
  set doy := ((n : Int) - gregJan1 us + 1).toNat with hdoy
  have hdi : (doy : Int) = (n : Int) - gregJan1 us + 1 := by omega
  have hdo1 : 1 ≤ doy := by omega
  have hdo2 : doy ≤ ((gregMonths (gregLeapU us)).map Prod.snd).sum := by
    rw [gregMonths_sum]
    split_ifs at hstep ⊢ <;> omega
  obtain ⟨⟨m, d⟩, hwm⟩ := walkMonth_total (gregMonths (gregLeapU us)) doy hdo1 hdo2
  obtain ⟨len, hlk, hd1, hdl, hwd⟩ :=
    walkMonth_inv (gregMonths (gregLeapU us)) doy m d (gregMonths_nodup _) hdo1 hwm
  have hun : ((us : Int) - 3761 + 3761).toNat = us := by omega
  clear_value us doy
  refine ⟨(us : Int) - 3761, m, d, ?_, ?_, ?_⟩
  · have e0 : gregFromAbs n = gregAssemble (gregYearSearch (615 + n) (n / 366) (n : Int)) n :=
      rfl
    have hwm2 : walkMonth (gregMonths (gregLeapU us)) (((n : Int) - gregJan1 us + 1).toNat) =
        some (m, d) := by
      rw [← hdoy]
      exact hwm
    rw [e0, ← hus, gregAssemble_eq us n m d hwm2]
  · refine gregorianDateValid_intro _ m d len (by omega) ?_ hd1 hdl
    rw [hun]
    exact hlk
  · have hwd2 : walkDoy (gregMonths (gregLeapU (((us : Int) - 3761) + 3761).toNat)) m d =
        some doy := by
      rw [hun]
      exact hwd
    rw [gregAbs_eq _ m d doy hwd2, hun]
    omega

/-! ### The conversion round trip -/

theorem convert_valid (y m d : Nat) (hv : hebrewDateValid y m d = true) :
    ∃ g, convert_hebrew_to_gregorian (y, m, d) = some g ∧
      gregorian_to_hebrew g = some (y, m, d) := by
  obtain ⟨habs1, hback⟩ := heb_to_from y m d hv
  obtain ⟨gy, gm, gd, hgeq, hgv, hga⟩ := greg_from_to (hebAbs y m d) habs1
  refine ⟨(gy, gm, gd), ?_, ?_⟩
  · simp only [convert_hebrew_to_gregorian, hv, if_true, hgeq]
  · have hcond : (gregorianDateValid gy gm gd = true) ∧ 1 ≤ gregAbs gy gm gd :=
      ⟨hgv, by rw [hga]; exact_mod_cast habs1⟩
    simp only [gregorian_to_hebrew]
    rw [if_pos hcond, hga]
    rw [show ((hebAbs y m d : Int)).toNat = hebAbs y m d from rfl]
    exact hback

theorem convert_back (g : Int × Nat × Nat) (h : Nat × Nat × Nat)
    (hg : gregorian_to_hebrew g = some h) :
    convert_hebrew_to_gregorian h = some g := by
  rw [gregorian_to_hebrew] at hg
  split_ifs at hg with hcond
  obtain ⟨hgv, hga⟩ := hcond
  have hn1 : 1 ≤ (gregAbs g.1 g.2.1 g.2.2).toNat := by omega
  obtain ⟨y, m, d, heq, hv, habs⟩ := heb_from_to (gregAbs g.1 g.2.1 g.2.2).toNat hn1
  rw [heq] at hg
  obtain rfl : h = (y, m, d) := by injection hg with h2; exact h2.symm
  obtain ⟨hfr, _⟩ := greg_to_from g.1 g.2.1 g.2.2 hgv hga
  simp only [convert_hebrew_to_gregorian, hv, if_true, habs, hfr]

/-- Claim C1, amended: for every valid Hebrew date the conversion to
Gregorian succeeds and converting back returns the same Hebrew date; and
whenever the Gregorian-to-Hebrew conversion succeeds, converting back
returns the same Gregorian date.  (As stated over every valid GregorianDate
the claim fails, because dates before 1 Tishrei of Hebrew year 1 have no
Hebrew form: see the counterexample.) -/
theorem claim_C1 :
    (∀ y m d : Nat, hebrewDateValid y m d = true →
      ∃ g, convert_hebrew_to_gregorian (y, m, d) = some g ∧
        gregorian_to_hebrew g = some (y, m, d)) ∧
    (∀ (g : Int × Nat × Nat) (h : Nat × Nat × Nat),
      gregorian_to_hebrew g = some h → convert_hebrew_to_gregorian h = some g) :=
  ⟨convert_valid, convert_back⟩

/-- Claim C1 as stated is refuted on the Gregorian side: 1 January -3761 is
a valid proleptic Gregorian date, but it precedes the Hebrew epoch, so
toHebrew fails on it and no round trip exists. -/
theorem claim_C1_counterexample :
    gregorianDateValid (-3761) 1 1 = true ∧
      gregorian_to_hebrew ((-3761 : Int), 1, 1) = none :=
  ⟨by decide, by decide⟩

/-- Witness for claim C1: the round trip at 1 Tishrei of Hebrew year 1 in
both directions. -/
theorem claim_C1_witness :
    (hebrewDateValid 1 7 1 = true ∧
      ∃ g, convert_hebrew_to_gregorian (1, 7, 1) = some g ∧
        gregorian_to_hebrew g = some (1, 7, 1)) ∧
    (gregorian_to_hebrew ((-3760 : Int), 9, 7) = some (1, 7, 1) ∧
      convert_hebrew_to_gregorian (1, 7, 1) = some ((-3760 : Int), 9, 7)) :=
  ⟨⟨by decide, claim_C1.1 1 7 1 (by decide)⟩,
   ⟨by decide, claim_C1.2 ((-3760 : Int), 9, 7) (1, 7, 1) (by decide)⟩⟩

/-! ### The occurrence-finder loop -/

theorem tryCandidate_year (hd hm : Nat) (gy : Int) (hy : Nat) (g : Int × Nat × Nat)
    (h : tryCandidate hd hm gy hy = some g) : g.1 = gy := by
  unfold tryCandidate at h
  cases hc : hebrew_to_gregorian hd hm hy with
  | none => rw [hc] at h; simp at h
  | some g2 =>
    rw [hc] at h
    simp only [] at h
    split_ifs at h with hg
    obtain rfl : g2 = g := by injection h
    exact hg

theorem perYear_year (hd hm : Nat) (gy : Int) (e : Int × Nat × Nat)
    (h : perYear hd hm gy = some e) : e.1 = gy := by
  unfold perYear at h
  cases h1 : gregorian_to_hebrew (gy, 1, 1) with
  | none => rw [h1] at h; simp at h
  | some hh =>
    rw [h1] at h
    simp only [] at h
    cases h2 : tryCandidate hd hm gy hh.1 with
    | some g =>
      rw [h2] at h
      simp only [] at h
      obtain rfl : g = e := by injection h
      exact tryCandidate_year hd hm gy hh.1 g h2
    | none =>
      rw [h2] at h
      simp only [] at h
      exact tryCandidate_year hd hm gy (hh.1 + 1) e h

theorem perYear_eq_spec (hd hm : Nat) (gy : Int) :
    perYear hd hm gy = specOccurrence hd hm gy := by
  unfold perYear specOccurrence
  cases h1 : gregorian_to_hebrew (gy, 1, 1) with
  | none => rfl
  | some hh =>
    cases h2 : tryCandidate hd hm gy hh.1 with
    | some g => simp [List.findSome?_cons, h2]
    | none =>
      simp only [List.findSome?_cons, h2]
      cases h3 : tryCandidate hd hm gy (hh.1 + 1) with
      | some g => simp [List.findSome?_cons, h3]
      | none => simp [List.findSome?_cons, h3]

theorem birthdayLoop_eq (hd hm : Nat) (sy : Int) (n : Nat) :
    birthdayLoop hd hm sy n =
      (List.range n).filterMap (fun (k : Nat) => perYear hd hm (sy + (k : Int))) := by
  induction n with
  | zero => rfl
  | succ k ih =>
    rw [birthdayLoop, ih, List.range_succ, List.filterMap_append]
    congr 1

theorem loop_mem (hd hm : Nat) (sy : Int) (n : Nat) (e : Int × Nat × Nat)
    (h : e ∈ birthdayLoop hd hm sy n) :
    ∃ k : Nat, k < n ∧ perYear hd hm (sy + (k : Int)) = some e := by
  rw [birthdayLoop_eq] at h
  rw [List.mem_filterMap] at h
  obtain ⟨k, hk, hpe⟩ := h
  exact ⟨k, List.mem_range.mp hk, hpe⟩

theorem loop_year_bounds (hd hm : Nat) (sy : Int) (n : Nat) (e : Int × Nat × Nat)
    (h : e ∈ birthdayLoop hd hm sy n) : sy ≤ e.1 ∧ e.1 < sy + (n : Int) := by
  obtain ⟨k, hk, hpe⟩ := loop_mem hd hm sy n e h
  have := perYear_year hd hm (sy + (k : Int)) e hpe
  omega

theorem loop_countP (hd hm : Nat) (sy : Int) (n : Nat) (Y : Int) :
    (birthdayLoop hd hm sy n).countP (fun e => decide (e.1 = Y)) ≤ 1 := by
  induction n with
  | zero => simp [birthdayLoop]
  | succ k ih =>
    rw [birthdayLoop, List.countP_append]
    by_cases hY : Y = sy + (k : Int)
    · have h0 : (birthdayLoop hd hm sy k).countP (fun e => decide (e.1 = Y)) = 0 := by
        rw [List.countP_eq_zero]
        intro e he
        have := loop_year_bounds hd hm sy k e he
        simp only [decide_eq_true_eq]
        omega
      have h1 : ((perYear hd hm (sy + (k : Int))).toList).countP (fun e => decide (e.1 = Y)) ≤ 1 := by
        refine le_trans (List.countP_le_length _) ?_
        cases perYear hd hm (sy + (k : Int)) <;> simp [Option.toList]
      omega
    · have h1 : ((perYear hd hm (sy + (k : Int))).toList).countP (fun e => decide (e.1 = Y)) = 0 := by
        rw [List.countP_eq_zero]
        intro e he
        cases hp : perYear hd hm (sy + (k : Int)) with
        | none => rw [hp] at he; simp at he
        | some g =>
          rw [hp] at he
          simp only [Option.toList, List.mem_singleton] at he
          subst he
          have := perYear_year hd hm (sy + (k : Int)) e hp
          simp only [decide_eq_true_eq]
          omega
      omega

/-- Claim C2: the finder computes, for each target year Y in the range, the
Hebrew year H of 1 January of Y, tries the candidate Hebrew years H and
H + 1 in that order accepting the first whose conversion lands in Y, skips
Y silently when the Hebrew date is invalid in both candidate years, and
returns the sorted collected results. -/
theorem claim_C2 :
    ∀ (hd hm : Nat) (sy n : Int),
      get_hebrew_birthday_gregorian_dates hd hm sy n =
        List.insertionSort dateLe
          ((List.range n.toNat).filterMap (fun (k : Nat) => specOccurrence hd hm (sy + (k : Int)))) ∧
      (∀ (gy : Int) (h : Nat × Nat × Nat),
        gregorian_to_hebrew (gy, 1, 1) = some h →
        hebrew_to_gregorian hd hm h.1 = none →
        hebrew_to_gregorian hd hm (h.1 + 1) = none →
        specOccurrence hd hm gy = none) := by
  intro hd hm sy n
  constructor
  · unfold get_hebrew_birthday_gregorian_dates
    rw [birthdayLoop_eq]
    simp only [perYear_eq_spec]
  · intro gy h hg hc1 hc2
    unfold specOccurrence
    rw [hg]
    have ht1 : tryCandidate hd hm gy h.1 = none := by
      unfold tryCandidate
      rw [hc1]
    have ht2 : tryCandidate hd hm gy (h.1 + 1) = none := by
      unfold tryCandidate
      rw [hc2]
    simp [List.findSome?_cons, ht1, ht2]

/-- Witness for claim C2: a concrete run, and the silent-skip clause at day
31, which is invalid in every Hebrew year. -/
theorem claim_C2_witness :
    (get_hebrew_birthday_gregorian_dates 31 7 (-3759) 2 =
      List.insertionSort dateLe
        ((List.range (2 : Int).toNat).filterMap (fun (k : Nat) => specOccurrence 31 7 (-3759 + (k : Int))))) ∧
    (gregorian_to_hebrew ((-3759 : Int), 1, 1) = some (1, 10, 27) ∧
      hebrew_to_gregorian 31 7 1 = none ∧
      hebrew_to_gregorian 31 7 (1 + 1) = none ∧
      specOccurrence 31 7 (-3759) = none) :=
  ⟨(claim_C2 31 7 (-3759) 2).1,
   by decide, by decide, by decide,
   (claim_C2 31 7 (-3759) 2).2 (-3759) (1, 10, 27) (by decide) (by decide) (by decide)⟩

/-- Claim C4: the finder returns a list sorted ascending by (year, month,
day), with at most one entry per Gregorian year, every entry falling in the
requested range of years. -/
theorem claim_C4 :
    ∀ (hd hm : Nat) (sy n : Int),
      List.Sorted dateLe (get_hebrew_birthday_gregorian_dates hd hm sy n) ∧
      (∀ Y : Int,
        (get_hebrew_birthday_gregorian_dates hd hm sy n).countP
          (fun e => decide (e.1 = Y)) ≤ 1) ∧
      (∀ e ∈ get_hebrew_birthday_gregorian_dates hd hm sy n,
        sy ≤ e.1 ∧ e.1 < sy + (n.toNat : Int)) := by
  intro hd hm sy n
  have hperm : List.Perm
      (List.insertionSort dateLe (birthdayLoop hd hm sy n.toNat))
      (birthdayLoop hd hm sy n.toNat) :=
    List.perm_insertionSort dateLe _
  refine ⟨List.sorted_insertionSort dateLe _, fun Y => ?_, fun e he => ?_⟩
  · unfold get_hebrew_birthday_gregorian_dates
    rw [hperm.countP_eq]
    exact loop_countP hd hm sy n.toNat Y
  · unfold get_hebrew_birthday_gregorian_dates at he
    rw [hperm.mem_iff] at he
    exact loop_year_bounds hd hm sy n.toNat e he

/-- Witness for claim C4 at a concrete input: 1 Tishrei searched over one
year starting at Gregorian year -3759 produces 28 August -3759. -/
theorem claim_C4_witness :
    ((-3759 : Int), 8, 28) ∈ get_hebrew_birthday_gregorian_dates 1 7 (-3759) 1 ∧
      ((-3759 : Int) ≤ ((-3759 : Int), 8, 28).1 ∧
        ((-3759 : Int), 8, 28).1 < -3759 + (((1 : Int)).toNat : Int)) :=
  ⟨by decide, (claim_C4 1 7 (-3759) 1).2.2 ((-3759 : Int), 8, 28) (by decide)⟩

theorem hebrewDateValid_false (y m d : Nat)
    (h : d < 1 ∨ 30 < d ∨ m < 1 ∨ 13 < m) : hebrewDateValid y m d = false := by
  rcases Bool.eq_false_or_eq_true (hebrewDateValid y m d) with h4 | h4
  · obtain ⟨hy, len, hlk, hd1, hdl⟩ := hebrewDateValid_elim y m d h4
    have hmm := monthsOfYear_len_le y m len (assocLookup_mem _ _ _ hlk)
    omega
  · exact h4

theorem perYear_none_of_invalid (hd hm : Nat) (gy : Int)
    (h : hd < 1 ∨ 30 < hd ∨ hm < 1 ∨ 13 < hm) : perYear hd hm gy = none := by
  have hconv : ∀ hy : Nat, hebrew_to_gregorian hd hm hy = none := by
    intro hy
    unfold hebrew_to_gregorian convert_hebrew_to_gregorian
    simp only [hebrewDateValid_false hy hm hd h, Bool.false_eq_true, if_false]
  unfold perYear
  cases h1 : gregorian_to_hebrew (gy, 1, 1) with
  | none => rfl
  | some hh =>
    have ht : ∀ hy : Nat, tryCandidate hd hm gy hy = none := by
      intro hy
      unfold tryCandidate
      rw [hconv hy]
    simp [ht]

/-- Claim C3, amended: the finder performs no input validation and never
raises: with a non-positive year count it returns the empty list, and with
a day outside 1-30 or a month outside 1-13 every per-year conversion fails
and it likewise returns the empty list. -/
theorem claim_C3_amended :
    ∀ (hd hm : Nat) (sy n : Int),
      (n ≤ 0 → get_hebrew_birthday_gregorian_dates hd hm sy n = []) ∧
      ((hd < 1 ∨ 30 < hd ∨ hm < 1 ∨ 13 < hm) →
        get_hebrew_birthday_gregorian_dates hd hm sy n = []) := by
  intro hd hm sy n
  constructor
  · intro hn
    unfold get_hebrew_birthday_gregorian_dates
    rw [show n.toNat = 0 by omega]
    rfl
  · intro h
    unfold get_hebrew_birthday_gregorian_dates
    have hnil : birthdayLoop hd hm sy n.toNat = [] := by
      induction n.toNat with
      | zero => rfl
      | succ k ih =>
        rw [birthdayLoop, ih, perYear_none_of_invalid hd hm (sy + (k : Int)) h]
        rfl
    rw [hnil]
    rfl

/-- Claim C3 as stated is refuted: with yearCount 0 and with day 31 the
finder returns the empty sequence instead of raising. -/
theorem claim_C3_counterexample :
    get_hebrew_birthday_gregorian_dates 1 7 2024 0 = [] ∧
      get_hebrew_birthday_gregorian_dates 31 7 (-3759) 1 = [] :=
  ⟨by rfl, by decide⟩

/-- Witness for claim C3 at concrete inputs for both quantified parts. -/
theorem claim_C3_amended_witness :
    get_hebrew_birthday_gregorian_dates 1 7 5 (-1) = [] ∧
      get_hebrew_birthday_gregorian_dates 0 7 5 3 = [] :=
  ⟨(claim_C3_amended 1 7 5 (-1)).1 (by omega),
   (claim_C3_amended 0 7 5 3).2 (by omega)⟩
